import Mathlib

/- Verification of the day-1 walk simulator (src/src/solutions/day1.rs).

   Modelling conventions:
   * Rust strings are modelled as `List Char`.  The source's byte-index
     `is_char_boundary` adjustment in `split` is trivial at `Char`
     granularity, so the midpoint cut is taken directly on the char list.
   * Rust `i32` values are modelled as `Int`; the `i32::from_str` range
     checks (overflow/underflow) are kept explicitly in `parseI32`.
   * Fallible operations return `Except Err _` mirroring `Result<T, String>`;
     the error payloads are modelled as a small inductive instead of the
     formatted strings.  A Rust panic (the `.unwrap()` in `solve1_par`) is
     modelled as `Option.none`.
   * `rayon`'s `reduce(identity, op)` contract makes the parallel reduction
     equal to the sequential left fold for an associative `op` with the given
     identity, so it is modelled as `List.foldl` from `State.default`.
   * The `FnvHashSet<Position>` of breadcrumbs is modelled as a
     `List Position` with membership-tested insertion at the head.
   * `str::trim_left` trims Unicode whitespace; the model uses
     `Char.isWhitespace` (ASCII whitespace), which agrees on every character
     the instruction grammar mentions. -/

namespace Day1

/-- Compass, day1.rs lines 16-22 (discriminants per `as_u8`, lines 43-50). -/
inductive Compass where
  | North
  | West
  | South
  | East
deriving DecidableEq, Fintype

/-- day1.rs lines 25-32. -/
def Compass.turn_left : Compass → Compass
  | .North => .West
  | .West => .South
  | .South => .East
  | .East => .North

/-- day1.rs lines 34-41. -/
def Compass.turn_right : Compass → Compass
  | .North => .East
  | .East => .South
  | .South => .West
  | .West => .North

/-- day1.rs lines 43-50 (`u8` modelled as `Nat`; values stay below 256). -/
def Compass.as_u8 : Compass → Nat
  | .North => 0
  | .West => 1
  | .South => 2
  | .East => 3

/-- day1.rs lines 52-60.  The `_ => unreachable!()` arm is dead for every
argument this file ever passes (`(a + b) % 4 < 4`); it is mapped to North. -/
def Compass.from_u8 : Nat → Compass
  | 0 => .North
  | 1 => .West
  | 2 => .South
  | 3 => .East
  | _ => .North

/-- `impl Add for Compass`, day1.rs lines 63-68. -/
def Compass.add (a b : Compass) : Compass :=
  Compass.from_u8 ((a.as_u8 + b.as_u8) % 4)

instance : Add Compass := ⟨Compass.add⟩

/-- `Position(i32, i32)`, day1.rs line 75; fields `.0`/`.1` named `x`/`y`. -/
@[ext]
structure Position where
  x : Int
  y : Int
deriving DecidableEq

/-- `impl Add for Position`, day1.rs lines 83-88 (also `AddAssign`, 77-81). -/
instance : Add Position := ⟨fun p q => ⟨p.x + q.x, p.y + q.y⟩⟩

/-- `impl Sub for Position`, day1.rs lines 90-95. -/
instance : Sub Position := ⟨fun p q => ⟨p.x - q.x, p.y - q.y⟩⟩

/-- `Position::dist`, day1.rs lines 97-101: `|x| + |y|`. -/
def Position.dist (p : Position) : Int :=
  (p.x.natAbs : Int) + (p.y.natAbs : Int)

/-- `State`, day1.rs lines 109-113. -/
@[ext]
structure State where
  compass : Compass
  position : Position
deriving DecidableEq

/-- `State::default()` (derived `Default`, day1.rs line 109): North, (0,0). -/
def State.default : State := ⟨.North, ⟨0, 0⟩⟩

/-- `impl Add for State`, day1.rs lines 142-161: the rhs position is rotated
into the lhs heading frame per the four match arms, compasses are composed. -/
def State.add (s rhs : State) : State :=
  match s.compass with
  | .North => ⟨s.compass + rhs.compass, s.position + ⟨rhs.position.x, rhs.position.y⟩⟩
  | .West => ⟨s.compass + rhs.compass, s.position + ⟨-rhs.position.y, rhs.position.x⟩⟩
  | .South => ⟨s.compass + rhs.compass, s.position + ⟨-rhs.position.x, -rhs.position.y⟩⟩
  | .East => ⟨s.compass + rhs.compass, s.position + ⟨rhs.position.y, -rhs.position.x⟩⟩

instance : Add State := ⟨State.add⟩

/-- The rotation used by each arm of `impl Add for State` (day1.rs 154-159),
factored out for reasoning: North is the identity rotation. -/
def rotate (c : Compass) (p : Position) : Position :=
  match c with
  | .North => ⟨p.x, p.y⟩
  | .West => ⟨-p.y, p.x⟩
  | .South => ⟨-p.x, -p.y⟩
  | .East => ⟨p.y, -p.x⟩

/-- Error payloads of the `Result<T, String>` values in day1.rs: the
`invalid turn` message of line 122, and the `ParseIntError` descriptions
surfaced at line 128. -/
inductive Err where
  | invalidTurn (c : Char)
  | intEmpty
  | intInvalidDigit
  | intOverflow
  | intUnderflow
deriving DecidableEq

/-- Whitespace predicate used by `str::trim_left` (day1.rs line 117). -/
def isWS (c : Char) : Bool := c.isWhitespace

/-- `str::trim_left` on a char list: drop leading whitespace. -/
def trimLeft : List Char → List Char
  | [] => []
  | c :: cs => if isWS c then trimLeft cs else c :: cs

/-- Digit accumulation inside `i32::from_str`: every remaining char must be
an ASCII digit; the value is built most-significant first. -/
def digitsValAux (acc : Nat) : List Char → Option Nat
  | [] => some acc
  | c :: cs => if c.isDigit then digitsValAux (10 * acc + (c.toNat - 48)) cs else none

/-- The digit part of `i32::from_str` after the sign has been stripped:
empty digits fail, any non-digit fails, and the value must fit in `i32`
(negative values may reach 2^31). -/
def parseSign (neg : Bool) (l : List Char) : Except Err Int :=
  if l = [] then .error .intEmpty
  else
    match digitsValAux 0 l with
    | none => .error .intInvalidDigit
    | some v =>
      if neg then
        if v ≤ 2147483648 then .ok (-(v : Int)) else .error .intUnderflow
      else
        if v ≤ 2147483647 then .ok ((v : Int)) else .error .intOverflow

/-- `i32::from_str` (the `parse::<i32>()` at day1.rs line 126): optional
leading sign, then a non-empty run of digits within the `i32` range. -/
def parseI32 : List Char → Except Err Int
  | [] => .error .intEmpty
  | c :: rest =>
    if c = '+' then parseSign false rest
    else if c = '-' then parseSign true rest
    else parseSign false (c :: rest)

/-- The displacement added at day1.rs lines 131-136, from the new compass. -/
def moveDelta (c : Compass) (dist : Int) : Position :=
  match c with
  | .North => ⟨0, dist⟩
  | .West => ⟨-dist, 0⟩
  | .South => ⟨0, -dist⟩
  | .East => ⟨dist, 0⟩

/-- Body of `State::process_cmd` after `cmd.trim_left()` (day1.rs 116-139).
The compass is assigned before the distance is parsed, so a parse failure
leaves the turn applied; an unrecognized turn character changes nothing;
an empty (all-whitespace) token is a successful no-op. -/
def processTrimmed (s : State) : List Char → State × Except Err Unit
  | [] => (s, .ok ())
  | c :: rest =>
    if c = 'L' then
      match parseI32 rest with
      | .error e => (⟨s.compass.turn_left, s.position⟩, .error e)
      | .ok n =>
        (⟨s.compass.turn_left, s.position + moveDelta s.compass.turn_left n⟩, .ok ())
    else if c = 'R' then
      match parseI32 rest with
      | .error e => (⟨s.compass.turn_right, s.position⟩, .error e)
      | .ok n =>
        (⟨s.compass.turn_right, s.position + moveDelta s.compass.turn_right n⟩, .ok ())
    else (s, .error (.invalidTurn c))

/-- `State::process_cmd`, day1.rs lines 116-139 (`&mut self` returned as the
first component, the `Result<()>` as the second). -/
def process_cmd (s : State) (cmd : List Char) : State × Except Err Unit :=
  processTrimmed s (trimLeft cmd)

/-- Rust `str::split(',')` on a char list: always at least one segment. -/
def splitComma : List Char → List (List Char)
  | [] => [[]]
  | c :: cs =>
    if c = ',' then [] :: splitComma cs
    else
      match splitComma cs with
      | [] => [[c]]
      | s :: ss => (c :: s) :: ss

/-- The command fold of `solve1_seq` (day1.rs 219-221): process each comma
segment in order, aborting at the first error. -/
def walkCmds (s : State) : List (List Char) → Except Err State
  | [] => .ok s
  | cmd :: rest =>
    match process_cmd s cmd with
    | (s', .ok _) => walkCmds s' rest
    | (_, .error e) => .error e

/-- `solve1_seq`, day1.rs lines 211-224. -/
def solve1_seq (input : List Char) : Except Err State :=
  if input = [] then .ok State.default
  else walkCmds State.default (splitComma input)

/-- Chars to skip, from the midpoint, until the next `L` or `R` (the scan in
`split`, day1.rs lines 230-233). -/
def skipToLR : List Char → Nat
  | [] => 0
  | c :: cs => if c = 'L' ∨ c = 'R' then 0 else skipToLR cs + 1

/-- `split`, day1.rs lines 226-236: cut at the midpoint, adjusted forward to
the next turn character (the byte-boundary loop is trivial on `List Char`). -/
def split (input : List Char) : List Char × List Char :=
  (input.take (input.length / 2 + skipToLR (input.drop (input.length / 2))),
   input.drop (input.length / 2 + skipToLR (input.drop (input.length / 2))))

/-- `resurse_split`, day1.rs lines 241-254: depth d fills a cluster of
2^(d+1) slices; the source's 32-slot cluster corresponds to depth 4. -/
def resurseSplit : Nat → List Char → List Char → List (List Char)
  | 0, left, right => [left, right]
  | d + 1, left, right =>
    resurseSplit d (split left).1 (split left).2 ++
      resurseSplit d (split right).1 (split right).2

/-- `solve1_par`, day1.rs lines 238-264.  `solve1_seq(p).unwrap()` panics on
a chunk parse error: the panic is `none`; `some p` is the `Ok(p)` result.
The rayon `reduce` is the left fold with `State::default()` and `+`. -/
def solve1_par (input : List Char) : Option Position :=
  ((resurseSplit 4 (split input).1 (split input).2).mapM
      (fun p => (solve1_seq p).toOption)).map
    (fun sts => (sts.foldl (fun a b => a + b) State.default).position)

/-- The unit step of `solve2_hash`, day1.rs lines 281-286. -/
def unitDelta (c : Compass) : Position :=
  match c with
  | .North => ⟨0, 1⟩
  | .West => ⟨-1, 0⟩
  | .South => ⟨0, -1⟩
  | .East => ⟨1, 0⟩

/-- The breadcrumb loop of day1.rs lines 292-295: step `n` times by `delta`,
returning the first already-present cell (and the crumbs accumulated). -/
def dropCrumbs (delta : Position) : Nat → Position → List Position → Option Position × List Position
  | 0, _, crumbs => (none, crumbs)
  | n + 1, current, crumbs =>
    if current + delta ∈ crumbs then (some (current + delta), crumbs)
    else dropCrumbs delta n (current + delta) ((current + delta) :: crumbs)

/-- Command loop of `solve2_hash`, day1.rs lines 276-299. -/
def solve2_hashAux : List (List Char) → State → List Position → Except Err Position
  | [], state, _ => .ok state.position
  | cmd :: rest, state, crumbs =>
    match process_cmd state cmd with
    | (_, .error e) => .error e
    | (state', .ok _) =>
      match dropCrumbs (unitDelta state'.compass)
          ((state.position - state'.position).dist).toNat state.position crumbs with
      | (some p, _) => .ok p
      | (none, crumbs') => solve2_hashAux rest state' crumbs'

/-- `solve2_hash`, day1.rs lines 268-300: crumbs seeded with the origin. -/
def solve2_hash (input : List Char) : Except Err Position :=
  solve2_hashAux (splitComma input) State.default [⟨0, 0⟩]

/-- Instrumented copy of `solve2_hashAux` that tags which of the two `Ok`
return sites produced the result: `true` for the early return at line 294
(intersection found), `false` for the fall-through at line 299 (stream
exhausted).  Used to reason about the two outcomes of `solve2_hash`. -/
def solve2_hashAuxTag : List (List Char) → State → List Position → Except Err (Bool × Position)
  | [], state, _ => .ok (false, state.position)
  | cmd :: rest, state, crumbs =>
    match process_cmd state cmd with
    | (_, .error e) => .error e
    | (state', .ok _) =>
      match dropCrumbs (unitDelta state'.compass)
          ((state.position - state'.position).dist).toNat state.position crumbs with
      | (some p, _) => .ok (true, p)
      | (none, crumbs') => solve2_hashAuxTag rest state' crumbs'

/-- `solve2_hash` with the return-site tag. -/
def solve2_hashTag (input : List Char) : Except Err (Bool × Position) :=
  solve2_hashAuxTag (splitComma input) State.default [⟨0, 0⟩]

/-- `Line(Position, Position)`, day1.rs line 303; `.0`/`.1` named fst/snd. -/
structure Line where
  fst : Position
  snd : Position
deriving DecidableEq

/-- `impl Intersects for (Line, Line)`, day1.rs lines 309-341: `l1` is the
pair's first component.  `canonical` holds when `l1` is vertical; the
crossing is reported when the horizontal line's y lies between the vertical
line's ys and the vertical line's x lies between the horizontal line's xs. -/
def intersects (l1 l2 : Line) : Option Position :=
  if (if l1.fst.x = l1.snd.x then l2 else l1).fst.y ≤
        max (if l1.fst.x = l1.snd.x then l1 else l2).fst.y
          (if l1.fst.x = l1.snd.x then l1 else l2).snd.y ∧
      min (if l1.fst.x = l1.snd.x then l1 else l2).fst.y
          (if l1.fst.x = l1.snd.x then l1 else l2).snd.y ≤
        (if l1.fst.x = l1.snd.x then l2 else l1).fst.y ∧
      (if l1.fst.x = l1.snd.x then l1 else l2).fst.x ≤
        max (if l1.fst.x = l1.snd.x then l2 else l1).fst.x
          (if l1.fst.x = l1.snd.x then l2 else l1).snd.x ∧
      min (if l1.fst.x = l1.snd.x then l2 else l1).fst.x
          (if l1.fst.x = l1.snd.x then l2 else l1).snd.x ≤
        (if l1.fst.x = l1.snd.x then l1 else l2).fst.x then
    some ⟨(if l1.fst.x = l1.snd.x then l1 else l2).fst.x,
          (if l1.fst.x = l1.snd.x then l2 else l1).fst.y⟩
  else none

/-- The `orient` parity of day1.rs lines 353-356 (from the compass *before*
the instruction). -/
def orientOf (c : Compass) : Nat :=
  match c with
  | .North | .South => 1
  | .East | .West => 0

/-- The history scan of `solve2_lin`, day1.rs lines 358-369: walk the history
with an explicit index; same-parity entries only update `prev`; a candidate
crossing equal to the new segment's start (`line.0`) is skipped with
`continue` (which also skips the `prev` update, as in the source). -/
def scanHistory (line : Line) (orient : Nat) : List Position → Position → Nat → Option Position
  | [], _, _ => none
  | hist :: rest, prev, idx =>
    if idx % 2 ≠ orient then scanHistory line orient rest hist (idx + 1)
    else
      match intersects (Line.mk prev hist) line with
      | some p => if p = line.fst then scanHistory line orient rest prev (idx + 1) else some p
      | none => scanHistory line orient rest hist (idx + 1)

/-- Command loop of `solve2_lin`, day1.rs lines 349-372.  Note the source
*discards* the `Result` of `process_cmd` (line 351): only the (possibly
partially updated) state is kept, and errors are never surfaced. -/
def solve2_linAux : List (List Char) → State → List Position → Position
  | [], state, _ => state.position
  | cmd :: rest, state, history =>
    match scanHistory (Line.mk state.position (process_cmd state cmd).1.position)
        (orientOf state.compass) history ⟨0, 0⟩ 0 with
    | some p => p
    | none =>
      solve2_linAux rest (process_cmd state cmd).1
        (history ++ [(process_cmd state cmd).1.position])

/-- `solve2_lin`, day1.rs lines 343-376: returns a bare `Position` (the final
position when no crossing is found). -/
def solve2_lin (input : List Char) : Position :=
  solve2_linAux (splitComma input) State.default []

/-- A token is malformed when `process_cmd` rejects it; by
`process_err_indep` this does not depend on the starting state. -/
def IsBad (cmd : List Char) : Bool :=
  match (process_cmd State.default cmd).2 with
  | .error _ => true
  | .ok _ => false

/-- A chunk produced by `split` is empty or starts with a turn letter. -/
def goodChunk (l : List Char) : Prop :=
  l = [] ∨ (∃ t, l = 'L' :: t) ∨ (∃ t, l = 'R' :: t)

/-- Worked example inputs (spec section 8). -/
def exR2L3 : List Char := ['R', '2', ',', ' ', 'L', '3']

def exR2R2R2 : List Char := ['R', '2', ',', ' ', 'R', '2', ',', ' ', 'R', '2']

def exR5L5R5R3 : List Char := ['R', '5', ',', ' ', 'L', '5', ',', ' ', 'R', '5', ',', ' ', 'R', '3']

def exR8R4R4R8 : List Char := ['R', '8', ',', ' ', 'R', '4', ',', ' ', 'R', '4', ',', ' ', 'R', '8']

def exR4 : List Char := ['R', '4']

def exL : List Char := ['L']

def exLx : List Char := ['L', 'x']

def exX1 : List Char := ['X', '1']

def exX1R2 : List Char := ['X', '1', ',', ' ', 'R', '2']

end Day1

deriving instance DecidableEq for Except

namespace Day1

@[simp] lemma pos_add_x (p q : Position) : (p + q).x = p.x + q.x := rfl

@[simp] lemma pos_add_y (p q : Position) : (p + q).y = p.y + q.y := rfl

@[simp] lemma pos_sub_x (p q : Position) : (p - q).x = p.x - q.x := rfl

@[simp] lemma pos_sub_y (p q : Position) : (p - q).y = p.y - q.y := rfl

@[simp] lemma caddNN : Compass.North + Compass.North = Compass.North := rfl

@[simp] lemma caddNW : Compass.North + Compass.West = Compass.West := rfl

@[simp] lemma caddNS : Compass.North + Compass.South = Compass.South := rfl

@[simp] lemma caddNE : Compass.North + Compass.East = Compass.East := rfl

@[simp] lemma caddWN : Compass.West + Compass.North = Compass.West := rfl

@[simp] lemma caddWW : Compass.West + Compass.West = Compass.South := rfl

@[simp] lemma caddWS : Compass.West + Compass.South = Compass.East := rfl

@[simp] lemma caddWE : Compass.West + Compass.East = Compass.North := rfl

@[simp] lemma caddSN : Compass.South + Compass.North = Compass.South := rfl

@[simp] lemma caddSW : Compass.South + Compass.West = Compass.East := rfl

@[simp] lemma caddSS : Compass.South + Compass.South = Compass.North := rfl

@[simp] lemma caddSE : Compass.South + Compass.East = Compass.West := rfl

@[simp] lemma caddEN : Compass.East + Compass.North = Compass.East := rfl

@[simp] lemma caddEW : Compass.East + Compass.West = Compass.North := rfl

@[simp] lemma caddES : Compass.East + Compass.South = Compass.West := rfl

@[simp] lemma caddEE : Compass.East + Compass.East = Compass.South := rfl

lemma compass_add_assoc : ∀ a b c : Compass, a + b + c = a + (b + c) := by decide

lemma compass_add_comm : ∀ a b : Compass, a + b = b + a := by decide

lemma compass_north_add : ∀ d : Compass, Compass.North + d = d := by decide

lemma compass_add_north : ∀ d : Compass, d + Compass.North = d := by decide

lemma compass_add_turn_left : ∀ a b : Compass, (a + b).turn_left = a + b.turn_left := by
  decide

lemma compass_add_turn_right : ∀ a b : Compass, (a + b).turn_right = a + b.turn_right := by
  decide

lemma state_add_eq (a b : State) :
    a + b = ⟨a.compass + b.compass, a.position + rotate a.compass b.position⟩ := by
  rcases a with ⟨ca, pa⟩
  cases ca <;> rfl

lemma pos_add_assoc (p q r : Position) : p + q + r = p + (q + r) := by
  apply Position.ext <;> simp [add_assoc]

lemma rotate_add (c : Compass) (p q : Position) :
    rotate c (p + q) = rotate c p + rotate c q := by
  cases c <;> apply Position.ext <;> simp [rotate] <;> ring

lemma rotate_rotate (c1 c2 : Compass) (p : Position) :
    rotate (c1 + c2) p = rotate c1 (rotate c2 p) := by
  cases c1 <;> cases c2 <;> apply Position.ext <;> simp [rotate]

lemma moveDelta_rotate (a d : Compass) (n : Int) :
    moveDelta (a + d) n = rotate a (moveDelta d n) := by
  cases a <;> cases d <;> apply Position.ext <;> simp [moveDelta, rotate]

lemma state_default_add (a : State) : State.default + a = a := by
  rcases a with ⟨ca, pa⟩
  rw [state_add_eq]
  apply State.ext
  · simpa [State.default] using compass_north_add ca
  · apply Position.ext <;> simp [State.default, rotate]

lemma state_add_default (a : State) : a + State.default = a := by
  rcases a with ⟨ca, pa⟩
  rw [state_add_eq]
  apply State.ext
  · simpa [State.default] using compass_add_north ca
  · apply Position.ext <;> cases ca <;> simp [State.default, rotate]

lemma state_add_assoc (a b c : State) : a + b + c = a + (b + c) := by
  simp only [state_add_eq]
  apply State.ext
  · exact compass_add_assoc a.compass b.compass c.compass
  · simp only [rotate_rotate, rotate_add]
    exact pos_add_assoc _ _ _

lemma foldl_state_add (l : List State) (a b : State) :
    l.foldl (fun x y => x + y) (a + b) = a + l.foldl (fun x y => x + y) b := by
  induction l generalizing b with
  | nil => rfl
  | cons x l ih => simpa [state_add_assoc] using ih (b + x)

lemma state_add_compass (a b : State) : (a + b).compass = a.compass + b.compass := by
  rw [state_add_eq]

lemma state_add_position (a b : State) :
    (a + b).position = a.position + rotate a.compass b.position := by
  rw [state_add_eq]

lemma trimLeft_cons_ws {d : Char} (hd : isWS d = true) (l : List Char) :
    trimLeft (d :: l) = trimLeft l := by
  simp [trimLeft, hd]

lemma trimLeft_cons_not {d : Char} (hd : isWS d = false) (l : List Char) :
    trimLeft (d :: l) = d :: l := by
  simp [trimLeft, hd]

lemma trimLeft_ws_append {w : List Char} (hw : ∀ x ∈ w, isWS x = true) (l : List Char) :
    trimLeft (w ++ l) = trimLeft l := by
  induction w with
  | nil => rfl
  | cons d w ih =>
    rw [List.cons_append, trimLeft_cons_ws (hw d (by simp))]
    exact ih (fun x hx => hw x (by simp [hx]))

lemma trimLeft_all_ws {l : List Char} (hw : ∀ x ∈ l, isWS x = true) : trimLeft l = [] := by
  simpa using trimLeft_ws_append hw []

lemma process_ws {cmd : List Char} (hw : ∀ x ∈ cmd, isWS x = true) (s : State) :
    process_cmd s cmd = (s, .ok ()) := by
  unfold process_cmd
  rw [trimLeft_all_ws hw]
  rfl

lemma process_cons_ws {d : Char} (hd : isWS d = true) (s : State) (l : List Char) :
    process_cmd s (d :: l) = process_cmd s l := by
  unfold process_cmd
  rw [trimLeft_cons_ws hd]

lemma process_ws_prefix {w : List Char} (hw : ∀ x ∈ w, isWS x = true) (s : State)
    (cmd : List Char) : process_cmd s (w ++ cmd) = process_cmd s cmd := by
  unfold process_cmd
  rw [trimLeft_ws_append hw]

lemma digitsValAux_digits :
    ∀ (l : List Char) (a v : Nat), digitsValAux a l = some v → ∀ x ∈ l, x.isDigit = true := by
  intro l
  induction l with
  | nil => intro a v _ x hx; simp at hx
  | cons c cs ih =>
    intro a v h x hx
    by_cases hc : c.isDigit
    · rw [digitsValAux, if_pos hc] at h
      rcases List.mem_cons.mp hx with rfl | hx'
      · exact hc
      · exact ih _ _ h x hx'
    · rw [digitsValAux, if_neg hc] at h
      simp at h

lemma parseSign_digits {neg : Bool} {l : List Char} {n : Int} (h : parseSign neg l = .ok n) :
    ∀ x ∈ l, x.isDigit = true := by
  unfold parseSign at h
  by_cases hl : l = []
  · rw [if_pos hl] at h
    simp at h
  · rw [if_neg hl] at h
    rcases hv : digitsValAux 0 l with _ | v
    · rw [hv] at h
      simp at h
    · exact digitsValAux_digits l 0 v hv

lemma parseI32_chars {l : List Char} {n : Int} (h : parseI32 l = .ok n) :
    ∀ x ∈ l, x.isDigit = true ∨ x = '+' ∨ x = '-' := by
  cases l with
  | nil => intro x hx; simp at hx
  | cons c rest =>
    intro x hx
    simp only [parseI32] at h
    by_cases hp : c = '+'
    · rw [if_pos hp] at h
      rcases List.mem_cons.mp hx with rfl | hx'
      · exact Or.inr (Or.inl hp)
      · exact Or.inl (parseSign_digits h x hx')
    · rw [if_neg hp] at h
      by_cases hm : c = '-'
      · rw [if_pos hm] at h
        rcases List.mem_cons.mp hx with rfl | hx'
        · exact Or.inr (Or.inr hm)
        · exact Or.inl (parseSign_digits h x hx')
      · rw [if_neg hm] at h
        exact Or.inl (parseSign_digits h x hx)

lemma ws_of_ok_append (s : State) (c : Char) (t : List Char) (hc : c = 'L' ∨ c = 'R') :
    ∀ seg1 : List Char, (process_cmd s (seg1 ++ c :: t)).2 = .ok () →
      ∀ x ∈ seg1, isWS x = true := by
  intro seg1
  induction seg1 with
  | nil => intro _ x hx; simp at hx
  | cons d seg1' ih =>
    intro h x hx
    by_cases hd : isWS d = true
    · rcases List.mem_cons.mp hx with rfl | hx'
      · exact hd
      · apply ih _ x hx'
        rw [List.cons_append, process_cons_ws hd] at h
        exact h
    · exfalso
      have hd' : isWS d = false := by simpa using hd
      rw [List.cons_append] at h
      unfold process_cmd at h
      rw [trimLeft_cons_not hd'] at h
      by_cases hL : d = 'L'
      · subst hL
        rcases hpi : parseI32 (seg1' ++ c :: t) with e | nn
        · simp [processTrimmed, hpi] at h
        · have hcm := parseI32_chars hpi c (by simp)
          rcases hc with rfl | rfl <;> exact absurd hcm (by decide)
      · by_cases hR : d = 'R'
        · subst hR
          rcases hpi : parseI32 (seg1' ++ c :: t) with e | nn
          · simp [processTrimmed, hpi] at h
          · have hcm := parseI32_chars hpi c (by simp)
            rcases hc with rfl | rfl <;> exact absurd hcm (by decide)
        · simp [processTrimmed, hL, hR] at h

lemma processTrimmed_shift (u s : State) (l : List Char) :
    processTrimmed (u + s) l = (u + (processTrimmed s l).1, (processTrimmed s l).2) := by
  cases l with
  | nil => rfl
  | cons c rest =>
    by_cases hL : c = 'L'
    · subst hL
      rcases hpi : parseI32 rest with e | n
      · simp [processTrimmed, hpi, state_add_eq, state_add_compass, state_add_position,
          compass_add_turn_left]
      · simp [processTrimmed, hpi, state_add_eq, state_add_compass, state_add_position,
          compass_add_turn_left, moveDelta_rotate, rotate_add, pos_add_assoc]
    · by_cases hR : c = 'R'
      · subst hR
        rcases hpi : parseI32 rest with e | n
        · simp [processTrimmed, hL, hpi, state_add_eq, state_add_compass, state_add_position,
            compass_add_turn_right]
        · simp [processTrimmed, hL, hpi, state_add_eq, state_add_compass, state_add_position,
            compass_add_turn_right, moveDelta_rotate, rotate_add, pos_add_assoc]
      · simp [processTrimmed, hL, hR]

lemma process_shift (u s : State) (cmd : List Char) :
    process_cmd (u + s) cmd = (u + (process_cmd s cmd).1, (process_cmd s cmd).2) :=
  processTrimmed_shift u s (trimLeft cmd)

lemma process_err_indep (s : State) (cmd : List Char) :
    (process_cmd s cmd).2 = (process_cmd State.default cmd).2 := by
  have h := process_shift s State.default cmd
  rw [state_add_default] at h
  rw [h]

lemma walkCmds_append (s : State) (xs ys : List (List Char)) :
    walkCmds s (xs ++ ys) = (walkCmds s xs).bind (fun t => walkCmds t ys) := by
  induction xs generalizing s with
  | nil => simp [walkCmds, Except.bind]
  | cons x xs ih =>
    rcases hp : process_cmd s x with ⟨s', r⟩
    cases r with
    | ok u => simp [walkCmds, hp, ih]
    | error e => simp [walkCmds, hp, Except.bind]

lemma walkCmds_append_ok {s t : State} {xs ys : List (List Char)}
    (h : walkCmds s (xs ++ ys) = .ok t) :
    ∃ m, walkCmds s xs = .ok m ∧ walkCmds m ys = .ok t := by
  rw [walkCmds_append] at h
  rcases hm : walkCmds s xs with e | m
  · rw [hm] at h
    simp [Except.bind] at h
  · rw [hm] at h
    simp [Except.bind] at h
    exact ⟨m, rfl, h⟩

lemma walkCmds_shift (u : State) (cmds : List (List Char)) :
    ∀ s, walkCmds (u + s) cmds = (walkCmds s cmds).map (fun t => u + t) := by
  induction cmds with
  | nil => intro s; simp [walkCmds, Except.map]
  | cons cmd rest ih =>
    intro s
    have hs := process_shift u s cmd
    rcases hp : process_cmd s cmd with ⟨s', r⟩
    rw [hp] at hs
    cases r with
    | ok _ => simp [walkCmds, hs, hp, ih s']
    | error e => simp [walkCmds, hs, hp, Except.map]

lemma splitComma_ne_nil (l : List Char) : splitComma l ≠ [] := by
  cases l with
  | nil => simp [splitComma]
  | cons c cs =>
    by_cases hc : c = ','
    · simp [splitComma, hc]
    · rcases h : splitComma cs with _ | ⟨s, ss⟩ <;> simp [splitComma, hc, h]

lemma splitComma_cons_head {c : Char} (hc : ¬c = ',') (l : List Char) :
    ∃ t ss, splitComma (c :: l) = (c :: t) :: ss := by
  rcases h : splitComma l with _ | ⟨s, ss⟩
  · exact absurd h (splitComma_ne_nil l)
  · exact ⟨s, ss, by simp [splitComma, hc, h]⟩

lemma splitComma_append (a b : List Char) :
    ∃ as1 aseg bseg bs2,
      splitComma a = as1 ++ [aseg] ∧ splitComma b = bseg :: bs2 ∧
        splitComma (a ++ b) = as1 ++ (aseg ++ bseg) :: bs2 := by
  induction a with
  | nil =>
    rcases hb : splitComma b with _ | ⟨bseg, bs2⟩
    · exact absurd hb (splitComma_ne_nil b)
    · exact ⟨[], [], bseg, bs2, by simp [splitComma], rfl, by simp [hb]⟩
  | cons c a' ih =>
    obtain ⟨as1, aseg, bseg, bs2, ha, hb, hab⟩ := ih
    by_cases hc : c = ','
    · subst hc
      refine ⟨[] :: as1, aseg, bseg, bs2, ?_, hb, ?_⟩
      · simp [splitComma, ha]
      · simp [splitComma, hab]
    · cases as1 with
      | nil =>
        simp only [List.nil_append] at ha hab
        refine ⟨[], c :: aseg, bseg, bs2, ?_, hb, ?_⟩
        · simp [splitComma, hc, ha]
        · simp [splitComma, hc, hab]
      | cons s0 rest1 =>
        simp only [List.cons_append] at ha hab
        refine ⟨(c :: s0) :: rest1, aseg, bseg, bs2, ?_, hb, ?_⟩
        · simp [splitComma, hc, ha]
        · simp [splitComma, hc, hab]

lemma seq_eq (l : List Char) : solve1_seq l = walkCmds State.default (splitComma l) := by
  cases l with
  | nil => simp [solve1_seq, splitComma, walkCmds, process_cmd, trimLeft, processTrimmed]
  | cons c cs => simp [solve1_seq]

lemma seq_split_core (a : List Char) (c : Char) (tb : List Char) (hc : c = 'L' ∨ c = 'R')
    {s : State} (h : solve1_seq (a ++ c :: tb) = .ok s) :
    ∃ sa sb, solve1_seq a = .ok sa ∧ solve1_seq (c :: tb) = .ok sb ∧ sa + sb = s := by
  have hcc : ¬c = ',' := by rcases hc with rfl | rfl <;> decide
  obtain ⟨as1, aseg, bseg, bs2, ha, hbsp, hab⟩ := splitComma_append a (c :: tb)
  obtain ⟨t', ss', hsc⟩ := splitComma_cons_head hcc tb
  obtain ⟨e1, e2⟩ := List.cons.inj (hsc.symm.trans hbsp)
  subst e1
  subst e2
  rw [seq_eq, hab] at h
  obtain ⟨s1, h1, h2⟩ := walkCmds_append_ok h
  rcases hp : process_cmd s1 (aseg ++ c :: t') with ⟨s2, r⟩
  cases r with
  | error e => simp [walkCmds, hp] at h2
  | ok _ =>
    simp only [walkCmds, hp] at h2
    have hws : ∀ x ∈ aseg, isWS x = true :=
      ws_of_ok_append s1 c t' hc aseg (by rw [hp])
    have hsa : solve1_seq a = .ok s1 := by
      rw [seq_eq, ha, walkCmds_append, h1]
      simp [Except.bind, walkCmds, process_ws hws]
    have hpb : process_cmd s1 (c :: t') = (s2, .ok ()) := by
      rw [← process_ws_prefix hws s1 (c :: t'), hp]
    rcases hpd : process_cmd State.default (c :: t') with ⟨d1, d2⟩
    have hshift := process_shift s1 State.default (c :: t')
    rw [state_add_default, hpb, hpd] at hshift
    have he1 : s2 = s1 + d1 := congrArg Prod.fst hshift
    have he2 : Except.ok () = d2 := congrArg Prod.snd hshift
    have hwb := walkCmds_shift s1 ss' d1
    rw [← he1, h2] at hwb
    rcases hwx : walkCmds d1 ss' with e | sb
    · rw [hwx] at hwb
      simp [Except.map] at hwb
    · rw [hwx] at hwb
      simp [Except.map] at hwb
      refine ⟨s1, sb, hsa, ?_, ?_⟩
      · rw [seq_eq, hsc]
        simp [walkCmds, hpd, ← he2, hwx]
      · exact hwb.symm

lemma seq_split (a b : List Char) (hb : goodChunk b) {s : State}
    (h : solve1_seq (a ++ b) = .ok s) :
    ∃ sa sb, solve1_seq a = .ok sa ∧ solve1_seq b = .ok sb ∧ sa + sb = s := by
  rcases hb with rfl | ⟨t, rfl⟩ | ⟨t, rfl⟩
  · rw [List.append_nil] at h
    exact ⟨s, State.default, h, by simp [solve1_seq], state_add_default s⟩
  · exact seq_split_core a 'L' t (Or.inl rfl) h
  · exact seq_split_core a 'R' t (Or.inr rfl) h

lemma split_append (x : List Char) : (split x).1 ++ (split x).2 = x :=
  List.take_append_drop _ _

lemma skipToLR_good (l : List Char) : goodChunk (l.drop (skipToLR l)) := by
  induction l with
  | nil => left; rfl
  | cons c cs ih =>
    by_cases hc : c = 'L' ∨ c = 'R'
    · rw [skipToLR, if_pos hc]
      rcases hc with rfl | rfl
      · exact Or.inr (Or.inl ⟨cs, by simp⟩)
      · exact Or.inr (Or.inr ⟨cs, by simp⟩)
    · rw [skipToLR, if_neg hc]
      simpa using ih

lemma split_snd_good (x : List Char) : goodChunk (split x).2 := by
  show goodChunk (x.drop (x.length / 2 + skipToLR (x.drop (x.length / 2))))
  rw [← List.drop_drop]
  exact skipToLR_good _

lemma take_good {x : List Char} (hx : goodChunk x) (n : Nat) : goodChunk (x.take n) := by
  rcases hx with rfl | ⟨t, rfl⟩ | ⟨t, rfl⟩
  · left; simp
  · cases n with
    | zero => left; simp
    | succ k => exact Or.inr (Or.inl ⟨t.take k, by simp⟩)
  · cases n with
    | zero => left; simp
    | succ k => exact Or.inr (Or.inr ⟨t.take k, by simp⟩)

lemma split_fst_good {x : List Char} (hx : goodChunk x) : goodChunk (split x).1 :=
  take_good hx _

lemma resurse_join (d : Nat) (l r : List Char) : (resurseSplit d l r).flatten = l ++ r := by
  induction d generalizing l r with
  | zero => simp [resurseSplit]
  | succ d ih => simp [resurseSplit, ih, split_append]

lemma resurse_ne_nil (d : Nat) (l r : List Char) : resurseSplit d l r ≠ [] := by
  induction d generalizing l r with
  | zero => simp [resurseSplit]
  | succ d ih =>
    intro hcontra
    rw [resurseSplit] at hcontra
    obtain ⟨h1, _⟩ := List.append_eq_nil.mp hcontra
    exact ih _ _ h1

lemma resurse_all_good (d : Nat) : ∀ {l r : List Char}, goodChunk l → goodChunk r →
    ∀ c ∈ resurseSplit d l r, goodChunk c := by
  induction d with
  | zero =>
    intro l r hl hr c hc
    simp [resurseSplit] at hc
    rcases hc with rfl | rfl
    · exact hl
    · exact hr
  | succ d ih =>
    intro l r hl hr c hc
    rw [resurseSplit] at hc
    rcases List.mem_append.mp hc with h | h
    · exact ih (split_fst_good hl) (split_snd_good l) c h
    · exact ih (split_fst_good hr) (split_snd_good r) c h

lemma resurse_tail_good (d : Nat) : ∀ {l r : List Char}, goodChunk r →
    ∀ c ∈ (resurseSplit d l r).tail, goodChunk c := by
  induction d with
  | zero =>
    intro l r hr c hc
    simp [resurseSplit] at hc
    subst hc
    exact hr
  | succ d ih =>
    intro l r hr c hc
    rw [resurseSplit] at hc
    obtain ⟨a, A', hA⟩ := List.exists_cons_of_ne_nil (resurse_ne_nil d (split l).1 (split l).2)
    rw [hA, List.cons_append, List.tail_cons] at hc
    rcases List.mem_append.mp hc with h | h
    · apply ih (split_snd_good l) c
      rw [hA, List.tail_cons]
      exact h
    · exact resurse_all_good d (split_fst_good hr) (split_snd_good r) c h

lemma join_good : ∀ {l : List (List Char)}, (∀ c ∈ l, goodChunk c) → goodChunk l.flatten := by
  intro l
  induction l with
  | nil => intro _; left; rfl
  | cons c cs ih =>
    intro h
    rcases h c (by simp) with rfl | ⟨t, rfl⟩ | ⟨t, rfl⟩
    · simpa using ih (fun x hx => h x (by simp [hx]))
    · exact Or.inr (Or.inl ⟨t ++ cs.flatten, by simp⟩)
    · exact Or.inr (Or.inr ⟨t ++ cs.flatten, by simp⟩)

lemma chunks_fold : ∀ (chunks : List (List Char)), (∀ c ∈ chunks.tail, goodChunk c) →
    ∀ {s : State}, solve1_seq chunks.flatten = .ok s →
      ∃ sts, chunks.mapM (fun p => (solve1_seq p).toOption) = some sts ∧
        sts.foldl (fun a b => a + b) State.default = s := by
  intro chunks
  induction chunks with
  | nil =>
    intro _ s hs
    refine ⟨[], rfl, ?_⟩
    simp [solve1_seq] at hs
    exact hs
  | cons c0 cs ih =>
    intro htail s hs
    have hgood : goodChunk cs.flatten := join_good (fun c hc => htail c hc)
    rw [show (c0 :: cs).flatten = c0 ++ cs.flatten from rfl] at hs
    obtain ⟨sa, sb, hsa, hsb, hsum⟩ := seq_split c0 cs.flatten hgood hs
    obtain ⟨sts, hmap, hfold⟩ := ih (fun c hc => htail c (List.mem_of_mem_tail hc)) hsb
    refine ⟨sa :: sts, ?_, ?_⟩
    · rw [List.mapM_cons, hsa, hmap]
      rfl
    · have hstep := foldl_state_add sts sa State.default
      rw [state_add_default] at hstep
      simp only [List.foldl_cons]
      rw [state_default_add, hstep, hfold]
      exact hsum

lemma hashAux_tag : ∀ (cmds : List (List Char)) (st : State) (crumbs : List Position),
    solve2_hashAux cmds st crumbs = (solve2_hashAuxTag cmds st crumbs).map Prod.snd := by
  intro cmds
  induction cmds with
  | nil => intro st crumbs; simp [solve2_hashAux, solve2_hashAuxTag, Except.map]
  | cons cmd rest ih =>
    intro st crumbs
    rcases hp : process_cmd st cmd with ⟨st', r⟩
    cases r with
    | error e => simp [solve2_hashAux, solve2_hashAuxTag, hp, Except.map]
    | ok _ =>
      rcases hd : dropCrumbs (unitDelta st'.compass)
          ((st.position - st'.position).dist).toNat st.position crumbs with ⟨res, crumbs'⟩
      cases res with
      | none => simp [solve2_hashAux, solve2_hashAuxTag, hp, hd, ih]
      | some p => simp [solve2_hashAux, solve2_hashAuxTag, hp, hd, Except.map]

lemma walkCmds_bad : ∀ {cmds : List (List Char)}, (∃ cmd ∈ cmds, IsBad cmd = true) →
    ∀ s, ∃ e, walkCmds s cmds = .error e := by
  intro cmds
  induction cmds with
  | nil =>
    intro h
    rcases h with ⟨cmd, hm, _⟩
    simp at hm
  | cons c rest ih =>
    intro h s
    rcases hp : process_cmd s c with ⟨s', r⟩
    cases r with
    | error e => exact ⟨e, by simp [walkCmds, hp]⟩
    | ok _ =>
      have hnb : IsBad c = false := by
        unfold IsBad
        rw [← process_err_indep s c, hp]
      rcases h with ⟨cmd, hm, hb⟩
      rcases List.mem_cons.mp hm with rfl | hm'
      · simp [hnb] at hb
      · obtain ⟨e, he⟩ := ih ⟨cmd, hm', hb⟩ s'
        exact ⟨e, by simp [walkCmds, hp, he]⟩

/-- C1: for every input string (comma-separated tokens) that the Sequential
Walker parses successfully, the Parallel Walker — which splits the text into
32 token-aligned chunks, walks each independently, and reduces the chunk
states left-to-right with the combine operator — returns exactly the same
final position as the Sequential Walker. -/
theorem c1_parallel_refines_sequential (input : List Char) (s : State)
    (h : solve1_seq input = .ok s) : solve1_par input = some s.position := by
  have hjoin : (resurseSplit 4 (split input).1 (split input).2).flatten = input := by
    rw [resurse_join, split_append]
  obtain ⟨sts, hmap, hfold⟩ :=
    chunks_fold (resurseSplit 4 (split input).1 (split input).2)
      (resurse_tail_good 4 (split_snd_good input)) (by rw [hjoin]; exact h)
  unfold solve1_par
  rw [hmap]
  simp [hfold]

/-- Witness for C1 at the concrete input R2, L3 (final state North, (2,3)). -/
theorem c1_witness : solve1_par exR2L3 = some ⟨2, 3⟩ :=
  c1_parallel_refines_sequential exR2L3 ⟨Compass.North, ⟨2, 3⟩⟩ (by decide)

/-- C2: the WalkState combine operator (`impl Add for State`) is associative,
and the identity WalkState (North, (0,0)) — `State.default` — is a two-sided
identity for it. -/
theorem c2_state_add_assoc_identity :
    (∀ a b c : State, a + b + c = a + (b + c)) ∧
    (∀ a : State, State.default + a = a ∧ a + State.default = a) :=
  ⟨state_add_assoc, fun a => ⟨state_default_add a, state_add_default a⟩⟩

/-- C3: Compass composition (`impl Add for Compass`) is associative and
commutative with North as identity, and turn_left / turn_right are mutual
inverses. -/
theorem c3_compass_group_laws :
    (∀ a b c : Compass, a + b + c = a + (b + c)) ∧
    (∀ a b : Compass, a + b = b + a) ∧
    (∀ d : Compass, Compass.North + d = d) ∧
    (∀ d : Compass, d.turn_right.turn_left = d) ∧
    (∀ d : Compass, d.turn_left.turn_right = d) := by
  refine ⟨compass_add_assoc, compass_add_comm, compass_north_add, ?_, ?_⟩ <;> decide

/-- C4: on the input R8, R4, R4, R8 the Breadcrumb Intersection Detector
returns the cell (4,0), the tag shows this came from the early
intersection-found return (the scan terminated there), and that cell has
Manhattan distance 4 from the origin. -/
theorem c4_hash_first_revisit_example :
    solve2_hash exR8R4R4R8 = .ok ⟨4, 0⟩ ∧
    solve2_hashTag exR8R4R4R8 = .ok (true, ⟨4, 0⟩) ∧
    Position.dist ⟨4, 0⟩ = 4 := by
  refine ⟨by decide, by decide, by decide⟩

/-- C5 counterexample: the input X1 has a malformed token (IsBad holds for
its single comma segment), yet the Segment Intersection Detector
`solve2_lin` does not surface any error value — it produces the position
(0,0).  This refutes the claim that every core operation surfaces parse
errors to the caller as an error value. -/
theorem c5_counterexample :
    IsBad exX1 = true ∧ splitComma exX1 = [exX1] ∧ solve2_lin exX1 = ⟨0, 0⟩ := by
  refine ⟨by decide, by decide, by decide⟩

/-- C5 amended: only the Sequential Walker is guaranteed to surface a parse
error as an error value on every input containing a malformed token; the
Breadcrumb Detector errors when it reaches the bad token (shown at X1), the
Parallel Walker panics (no error value: `none`), and the Segment Detector
ignores the failure and still produces a position. -/
theorem c5_error_handling_amended :
    (∀ input : List Char, (∃ cmd ∈ splitComma input, IsBad cmd = true) →
      ∃ e, solve1_seq input = .error e) ∧
    solve2_hash exX1 = .error (.invalidTurn 'X') ∧
    solve1_par exX1 = none ∧
    solve2_lin exX1 = ⟨0, 0⟩ := by
  refine ⟨?_, by decide, by decide, by decide⟩
  intro input hbad
  rcases input with _ | ⟨c, cs⟩
  · rcases hbad with ⟨cmd, hmem, hb⟩
    simp [splitComma] at hmem
    subst hmem
    exact absurd hb (by decide)
  · rw [seq_eq]
    exact walkCmds_bad hbad State.default

/-- Witness for C5 (amended): the input X1, R2 contains the malformed token
X1, and the Sequential Walker surfaces an error on it. -/
theorem c5_witness : ∃ e, solve1_seq exX1R2 = .error e :=
  c5_error_handling_amended.1 exX1R2 ⟨exX1, by decide, by decide⟩

/-- C6 counterexample: processing the token L (turn letter, no digits) does
not succeed — it returns the empty-integer parse error (with the orientation
already turned and the position unchanged).  This refutes the claim that
such a token is valid. -/
theorem c6_counterexample :
    (process_cmd State.default exL).2 = .error .intEmpty ∧
    (process_cmd State.default exL).1 = ⟨Compass.West, ⟨0, 0⟩⟩ := by
  refine ⟨by decide, by decide⟩

/-- C6 amended: a token consisting of a bare turn letter is rejected with the
empty-integer parse error, the orientation turned but the position unchanged;
what does succeed without moving is an empty / all-whitespace token. -/
theorem c6_pure_turn_amended :
    (∀ (s : State) (c : Char), c = 'L' ∨ c = 'R' →
      process_cmd s [c] =
        (⟨if c = 'L' then s.compass.turn_left else s.compass.turn_right, s.position⟩,
          .error .intEmpty)) ∧
    (∀ (s : State) (cmd : List Char), (∀ x ∈ cmd, isWS x = true) →
      process_cmd s cmd = (s, .ok ())) := by
  constructor
  · intro s c hc
    rcases hc with rfl | rfl
    · have h1 : isWS 'L' = false := by decide
      simp [process_cmd, trimLeft, h1, processTrimmed, parseI32]
    · have h1 : isWS 'R' = false := by decide
      have h2 : ('R' : Char) ≠ 'L' := by decide
      simp [process_cmd, trimLeft, h1, processTrimmed, parseI32, h2]
  · intro s cmd hw
    exact process_ws hw s

/-- Witness for C6 (amended) at the concrete tokens L and a single space. -/
theorem c6_witness :
    process_cmd State.default ['L'] = (⟨Compass.West, ⟨0, 0⟩⟩, .error .intEmpty) ∧
    process_cmd State.default [' '] = (State.default, .ok ()) := by
  constructor
  · have h := c6_pure_turn_amended.1 State.default 'L' (Or.inl rfl)
    simpa [State.default, Compass.turn_left] using h
  · exact c6_pure_turn_amended.2 State.default [' '] (by decide)

/-- C7 counterexample: the found-intersection run on R8, R4, R4, R8 and the
exhausted run on R4 come from different return sites (per the tag) yet give
Ok results that are literally equal, so the result type of `solve2_hash`
does not let a caller tell the two outcomes apart. -/
theorem c7_counterexample :
    solve2_hashTag exR8R4R4R8 = .ok (true, ⟨4, 0⟩) ∧
    solve2_hashTag exR4 = .ok (false, ⟨4, 0⟩) ∧
    solve2_hash exR8R4R4R8 = solve2_hash exR4 := by
  refine ⟨by decide, by decide, by decide⟩

/-- C7 amended: `solve2_hash` returns a bare Ok position in both outcomes —
the first revisited cell when one is found, otherwise the final position —
with no flag: the return-site tag is erased in the actual result, so the two
cases are not distinguished in the result type. -/
theorem c7_untagged_result_amended :
    ∀ (input : List Char) (b : Bool) (p : Position),
      solve2_hashTag input = .ok (b, p) → solve2_hash input = .ok p := by
  intro input b p h
  unfold solve2_hash
  rw [hashAux_tag]
  unfold solve2_hashTag at h
  rw [h]
  rfl

/-- Witness for C7 (amended) at the exhausted run on R4. -/
theorem c7_witness : solve2_hash exR4 = .ok ⟨4, 0⟩ :=
  c7_untagged_result_amended exR4 false ⟨4, 0⟩ (by decide)

/-- C8: the Sequential Walker yields Manhattan distances 5, 2 and 12 on the
three worked examples, and the identity WalkState (distance 0) on the empty
input. -/
theorem c8_seq_examples :
    (solve1_seq exR2L3).map (fun st => st.position.dist) = .ok 5 ∧
    (solve1_seq exR2R2R2).map (fun st => st.position.dist) = .ok 2 ∧
    (solve1_seq exR5L5R5R3).map (fun st => st.position.dist) = .ok 12 ∧
    solve1_seq [] = .ok State.default ∧ State.default.position.dist = 0 := by
  refine ⟨by decide, by decide, by decide, by decide, by decide⟩

/-- C9: the history scan of the Segment Intersection Detector never reports a
candidate crossing equal to the new segment's start point (`line.fst`, the
position before the current instruction): whenever it returns a point, that
point differs from the segment start. -/
theorem c9_skip_segment_start :
    ∀ (line : Line) (orient : Nat) (history : List Position) (prev : Position) (idx : Nat)
      (p : Position), scanHistory line orient history prev idx = some p → p ≠ line.fst := by
  intro line orient history
  induction history with
  | nil => intro prev idx p h; simp [scanHistory] at h
  | cons hist rest ih =>
    intro prev idx p h
    rw [scanHistory] at h
    by_cases hpar : idx % 2 ≠ orient
    · rw [if_pos hpar] at h
      exact ih hist (idx + 1) p h
    · rw [if_neg hpar] at h
      rcases hint : intersects (Line.mk prev hist) line with _ | q
      · simp only [hint] at h
        exact ih hist (idx + 1) p h
      · simp only [hint] at h
        by_cases hq : q = line.fst
        · rw [if_pos hq] at h
          exact ih prev (idx + 1) p h
        · rw [if_neg hq] at h
          obtain rfl := Option.some.inj h
          exact fun hcon => hq hcon

/-- Witness for C9: a scan that does return a crossing, at a point distinct
from the segment start. -/
theorem c9_witness : (⟨0, 0⟩ : Position) ≠ (Line.mk ⟨0, -1⟩ ⟨0, 1⟩).fst :=
  c9_skip_segment_start (Line.mk ⟨0, -1⟩ ⟨0, 1⟩) 1 [⟨-1, 0⟩, ⟨1, 0⟩] ⟨0, 0⟩ 0 ⟨0, 0⟩
    (by decide)

/-- C10: when the first non-space character of a token is a valid turn letter
but the remainder fails integer parsing, `process_cmd` returns the error
with the orientation already turned and the position unchanged (non-atomic
error path); on an unrecognized turn character the whole state is left
unchanged. -/
theorem c10_nonatomic_error (s : State) (cmd : List Char) (c : Char) (rest : List Char)
    (h : trimLeft cmd = c :: rest) :
    ((c = 'L' ∨ c = 'R') → ∀ e, parseI32 rest = .error e →
      process_cmd s cmd =
        (⟨if c = 'L' then s.compass.turn_left else s.compass.turn_right, s.position⟩,
          .error e)) ∧
    (¬(c = 'L' ∨ c = 'R') → process_cmd s cmd = (s, .error (.invalidTurn c))) := by
  unfold process_cmd
  rw [h]
  constructor
  · intro hc e he
    rcases hc with rfl | rfl
    · simp [processTrimmed, he]
    · have h2 : ('R' : Char) ≠ 'L' := by decide
      simp [processTrimmed, he, h2]
  · intro hc
    have h1 : c ≠ 'L' := fun hh => hc (Or.inl hh)
    have h2 : c ≠ 'R' := fun hh => hc (Or.inr hh)
    simp [processTrimmed, h1, h2]

/-- Witness for C10 at the tokens Lx (turn applied, then error) and X1 (state
unchanged). -/
theorem c10_witness :
    process_cmd State.default exLx = (⟨Compass.West, ⟨0, 0⟩⟩, .error .intInvalidDigit) ∧
    process_cmd State.default exX1 = (State.default, .error (.invalidTurn 'X')) := by
  constructor
  · have h := (c10_nonatomic_error State.default exLx 'L' ['x'] (by decide)).1
      (Or.inl rfl) .intInvalidDigit (by decide)
    simpa [State.default, Compass.turn_left] using h
  · have h := (c10_nonatomic_error State.default exX1 'X' ['1'] (by decide)).2 (by decide)
    simpa using h

end Day1
